import Mathlib

/-!
# Verification of the lock-free memory pool (`LockFreeMemoryPool.h`)

Shallow embedding of the pool's sequential behaviour.  A pool state is the
vector of per-slot availability flags (`true` = free, as in the source's
`std::atomic<bool> available{true}`) together with the `search_start` hint.
The weak compare-and-exchange may fail spuriously; this nondeterminism is
captured by an oracle telling, for each probe attempt and retry round,
whether the CAS fails spuriously.  Constructor success or failure of the
stored type `T` is likewise a boolean parameter of each allocation call.

Every atomic access performed by an operation is recorded, with its
`std::memory_order` argument, in an event trace, so that the memory-ordering
contract can be stated about the traces the operations generate.
-/

namespace LFMemoryPool

/-- The `std::memory_order` values used by the source. -/
inductive MemOrder where
  | relaxed
  | acquire
  | release
  | acq_rel
  | seq_cst
  deriving DecidableEq

/-- One atomic access, as performed by the pool's operations, together with
the memory orderings the source passes at the corresponding call site. -/
inductive AtomicEvent where
  /-- `search_start.load(ord)` -/
  | hintLoad (ord : MemOrder)
  /-- `search_start.store(value, ord)` -/
  | hintStore (value : Nat) (ord : MemOrder)
  /-- successful `segments[idx].available.compare_exchange_weak(true, false, succOrd, failOrd)` -/
  | casSuccess (idx : Nat) (succOrd failOrd : MemOrder)
  /-- failed CAS on `segments[idx].available`; `observed` is the value loaded -/
  | casFailure (idx : Nat) (succOrd failOrd : MemOrder) (observed : Bool)
  /-- `segments[idx].available.store(value, ord)` -/
  | availStore (idx : Nat) (value : Bool) (ord : MemOrder)
  deriving DecidableEq

/-- Pool state: availability flag of each segment (`true` = free) and the
`search_start` hint.  The segment count is `segments.length`. -/
structure PoolState where
  segments : List Bool
  search_start : Nat
  deriving DecidableEq

/-- `LockFreeMemoryPool(pool_size)`: all `pool_size` segments free, hint `0`. -/
def mkPool (pool_size : Nat) : PoolState :=
  { segments := List.replicate pool_size true, search_start := 0 }

/-- `constexpr int max_spurious_retries = 3;` (source line 105). -/
def max_spurious_retries : Nat := 3

instance : DecidableEq (Except Unit (Option Nat)) := fun a b =>
  match a, b with
  | .ok x, .ok y =>
    match decEq x y with
    | Decidable.isTrue h => Decidable.isTrue (congrArg Except.ok h)
    | Decidable.isFalse h => Decidable.isFalse (fun hh => h (Except.ok.inj hh))
  | .ok _, .error _ => Decidable.isFalse (fun hh => Except.noConfusion hh)
  | .error _, .ok _ => Decidable.isFalse (fun hh => Except.noConfusion hh)
  | .error x, .error y =>
    match decEq x y with
    | Decidable.isTrue h => Decidable.isTrue (congrArg Except.error h)
    | Decidable.isFalse h => Decidable.isFalse (fun hh => h (Except.error.inj hh))

/-- Outcome of `allocate_fast`: `Except.error ()` models the propagated
constructor exception, `Except.ok none` the `nullptr` returned on
exhaustion, `Except.ok (some i)` a pointer into slot `i`'s storage. -/
structure AllocResult where
  result : Except Unit (Option Nat)
  state : PoolState
  events : List AtomicEvent
  deriving DecidableEq

/-- The inner retry loop of `allocate_fast` (source lines 115-146) for one
slot `idx`: up to `max_spurious_retries` weak-CAS attempts.  `sp r` tells
whether the CAS of retry round `r` fails spuriously (only possible while the
slot reads free).  Returns the claimed state (`none` if the slot was not
claimed) and the trace of CAS events.  The `Nat` argument after `retry` is
the remaining fuel, `max_spurious_retries - retry` at every call. -/
def claimSlotFrom (st : PoolState) (idx : Nat) (sp : Nat → Bool) (retry : Nat) :
    Nat → Option PoolState × List AtomicEvent
  | 0 => (none, [])
  | fuel + 1 =>
    match st.segments.getD idx false, sp retry with
    | true, false =>
      -- CAS succeeds: the slot read free and the weak CAS did not fail
      (some { st with segments := st.segments.set idx false },
       [AtomicEvent.casSuccess idx .acq_rel .relaxed])
    | true, true =>
      -- spurious failure: `expected` is still true, retry this slot
      ((claimSlotFrom st idx sp (retry + 1) fuel).1,
       AtomicEvent.casFailure idx .acq_rel .relaxed true ::
         (claimSlotFrom st idx sp (retry + 1) fuel).2)
    | false, _ =>
      -- `!expected`: slot genuinely occupied, break to the next slot
      (none, [AtomicEvent.casFailure idx .acq_rel .relaxed false])

/-- All CAS attempts `allocate_fast` makes on one slot. -/
def claimSlot (st : PoolState) (idx : Nat) (sp : Nat → Bool) :
    Option PoolState × List AtomicEvent :=
  claimSlotFrom st idx sp 0 max_spurious_retries

/-- The probe loop of `allocate_fast` (source lines 111-149), starting at
probe number `attempts` with `pool_size - attempts` iterations of fuel left.
`spur a r` says whether the CAS of retry round `r` during probe `a` fails
spuriously; `ctorOk` says whether `T`'s constructor succeeds. -/
def allocFrom (st : PoolState) (pool_size start : Nat) (spur : Nat → Nat → Bool)
    (ctorOk : Bool) (attempts : Nat) : Nat → AllocResult
  | 0 => { result := .ok none, state := st, events := [] }
  | fuel + 1 =>
    match claimSlot st ((start + attempts) % pool_size) (spur attempts), ctorOk with
    | (some st', evs), true =>
      { result := .ok (some ((start + attempts) % pool_size)),
        state := { st' with
                   search_start := ((start + attempts) % pool_size + 1) % pool_size },
        events := evs ++
          [AtomicEvent.hintStore (((start + attempts) % pool_size + 1) % pool_size)
            .relaxed] }
    | (some st', evs), false =>
      -- construction failed: release the slot and propagate (lines 128-132)
      { result := .error (),
        state := { st' with
                   segments := st'.segments.set ((start + attempts) % pool_size) true },
        events := evs ++
          [AtomicEvent.availStore ((start + attempts) % pool_size) true .release] }
    | (none, evs), _ =>
      { result := (allocFrom st pool_size start spur ctorOk (attempts + 1) fuel).result,
        state := (allocFrom st pool_size start spur ctorOk (attempts + 1) fuel).state,
        events := evs ++ (allocFrom st pool_size start spur ctorOk (attempts + 1) fuel).events }

/-- `allocate_fast` (source lines 103-153). -/
def allocate_fast (st : PoolState) (spur : Nat → Nat → Bool) (ctorOk : Bool) :
    AllocResult :=
  let r := allocFrom st st.segments.length st.search_start spur ctorOk 0
            st.segments.length
  { r with events := AtomicEvent.hintLoad .relaxed :: r.events }

/-- `allocate_safe` (source lines 89-99): forwards to `allocate_fast` and
turns a constructor exception into a null handle. -/
def allocate_safe (st : PoolState) (spur : Nat → Nat → Bool) (ctorOk : Bool) :
    Option Nat × PoolState :=
  let r := allocate_fast st spur ctorOk
  match r.result with
  | .ok p => (p, r.state)
  | .error _ => (none, r.state)

/-- `deallocate_impl_safe` (source lines 184-192).  The pointer argument is
represented by the slot index the source recovers by pointer subtraction
(`block - &segments[0]`); nothing constrains it to `[0, Capacity)`.  The
function unconditionally stores `true` (free) with release ordering and
returns `true`. -/
def deallocate_impl_safe (st : PoolState) (idx : Nat) :
    Bool × PoolState × List AtomicEvent :=
  (true, { st with segments := st.segments.set idx true },
   [AtomicEvent.availStore idx true .release])

/-- `SAFE_CALL(expr, msg)` aborts (in debug builds) exactly when `expr`
evaluates to `false`. -/
def SAFE_CALL_aborts (cond : Bool) : Prop := cond = false

/-- `deallocate_fast` (source lines 156-166).  `none` models `nullptr`. -/
def deallocate_fast (st : PoolState) (ptr : Option Nat) :
    PoolState × List AtomicEvent :=
  match ptr with
  | none => (st, [])
  | some idx =>
    -- destructor runs here, then the slot is marked free
    let r := deallocate_impl_safe st idx
    (r.2.1, r.2.2)

/-- The spurious-failure oracle of a sequential execution: a weak CAS on a
free slot never fails. -/
def noSpur : Nat → Nat → Bool := fun _ _ => false

/-- `PoolStats` (statistics header, lines 21-26); `utilization_percent`
models the `double` field exactly, as a rational. -/
structure PoolStats where
  total_objects : Nat
  free_objects : Nat
  used_objects : Nat
  utilization_percent : Rat
  deriving DecidableEq

/-- `get_pool_stats_impl` (statistics header, lines 31-46). -/
def get_pool_stats_impl (st : PoolState) : PoolStats :=
  let total := st.segments.length
  let free_count := st.segments.count true
  let used := total - free_count
  { total_objects := total,
    free_objects := free_count,
    used_objects := used,
    utilization_percent :=
      if total > 0 then (used : Rat) / (total : Rat) * 100 else 0 }

/-- Number of slots whose availability flag is `false` (occupied). -/
def occupiedCount (st : PoolState) : Nat :=
  st.segments.countP (fun b => b = false)

/-- A client operation on the pool. -/
inductive Op where
  | alloc (ctorOk : Bool)
  | free (ptr : Option Nat)
  deriving DecidableEq

/-- Effect of one operation on the pool state (sequential execution). -/
def step (st : PoolState) : Op → PoolState
  | .alloc ctorOk => (allocate_safe st noSpur ctorOk).2
  | .free ptr => (deallocate_fast st ptr).1

/-- Final state after a sequence of operations. -/
def runOps (st : PoolState) (ops : List Op) : PoolState :=
  ops.foldl step st

/-- The results of the allocation calls in a sequence of operations. -/
def runAllocResults (st : PoolState) : List Op → List (Option Nat)
  | [] => []
  | .alloc ctorOk :: ops =>
    (allocate_safe st noSpur ctorOk).1 :: runAllocResults (step st (.alloc ctorOk)) ops
  | .free ptr :: ops => runAllocResults (step st (.free ptr)) ops

/-- `n` back-to-back `allocate_safe` calls (all constructors succeeding):
the list of results and the final state. -/
def allocN (st : PoolState) : Nat → List (Option Nat) × PoolState
  | 0 => ([], st)
  | n + 1 =>
    let r := allocate_safe st noSpur true
    let rest := allocN r.2 n
    (r.1 :: rest.1, rest.2)

/-- The memory-ordering contract of the spec, as a predicate on one atomic
event: claim-CAS orderings are acquire-release (success) / relaxed
(failure), a slot release stores `true` (free) with release ordering, and
hint accesses are relaxed. -/
def orderOk : AtomicEvent → Prop
  | .hintLoad o => o = .relaxed
  | .hintStore _ o => o = .relaxed
  | .casSuccess _ so fo => so = .acq_rel ∧ fo = .relaxed
  | .casFailure _ so fo _ => so = .acq_rel ∧ fo = .relaxed
  | .availStore _ v o => o = .release ∧ v = true

section ListHelpers

lemma getD_set_ne (l : List Bool) (i j : Nat) (a : Bool) (h : i ≠ j) :
    (l.set i a).getD j false = l.getD j false := by
  simp [List.getD_eq_getElem?_getD, List.getElem?_set_ne h]

lemma set_getD_self (l : List Bool) (i : Nat) (h : l.getD i false = true) :
    l.set i true = l := by
  induction l generalizing i with
  | nil => rfl
  | cons x xs ih =>
    cases i with
    | zero => simp only [List.getD_cons_zero] at h; simp [List.set, h]
    | succ n =>
      simp only [List.getD_cons_succ] at h
      simp [List.set, ih n h]

lemma count_true_set_false (l : List Bool) (i : Nat) (h : l.getD i false = true) :
    (l.set i false).count true + 1 = l.count true := by
  induction l generalizing i with
  | nil => simp [List.getD] at h
  | cons x xs ih =>
    cases i with
    | zero =>
      simp only [List.getD_cons_zero] at h
      subst h
      simp [List.set, List.count_cons]
    | succ n =>
      simp only [List.getD_cons_succ] at h
      have := ih n h
      cases x <;> simp [List.set, List.count_cons] <;> omega

lemma count_zero_getD (l : List Bool) (h : l.count true = 0) (i : Nat) :
    l.getD i false = false := by
  induction l generalizing i with
  | nil => simp [List.getD]
  | cons x xs ih =>
    cases x with
    | true => simp [List.count_cons] at h
    | false =>
      cases i with
      | zero => simp [List.getD]
      | succ n =>
        simp only [List.getD_cons_succ]
        exact ih (by simpa [List.count_cons] using h) n

lemma count_pos_exists (l : List Bool) (h : 0 < l.count true) :
    ∃ i, i < l.length ∧ l.getD i false = true := by
  induction l with
  | nil => simp at h
  | cons x xs ih =>
    cases x with
    | true => exact ⟨0, by simp, by simp [List.getD]⟩
    | false =>
      have h' : 0 < xs.count true := by simpa [List.count_cons] using h
      obtain ⟨i, hi, hg⟩ := ih h'
      exact ⟨i + 1, by simpa using Nat.succ_lt_succ hi, by simpa [List.getD] using hg⟩

lemma exists_probe_hit (psize start i : Nat) (hp : 0 < psize) (hi : i < psize) :
    ∃ k, k < psize ∧ (start + k) % psize = i := by
  have hs : start % psize < psize := Nat.mod_lt _ hp
  by_cases hle : start % psize ≤ i
  · refine ⟨i - start % psize, by omega, ?_⟩
    rw [Nat.add_mod, Nat.mod_eq_of_lt (show i - start % psize < psize by omega)]
    rw [show start % psize + (i - start % psize) = i by omega, Nat.mod_eq_of_lt hi]
  · refine ⟨psize + i - start % psize, by omega, ?_⟩
    rw [Nat.add_mod, Nat.mod_eq_of_lt (show psize + i - start % psize < psize by omega)]
    rw [show start % psize + (psize + i - start % psize) = psize + i by omega]
    rw [Nat.add_comm psize i, Nat.add_mod_right, Nat.mod_eq_of_lt hi]

end ListHelpers

section ClaimSlotLemmas

lemma claimSlotFrom_occupied (st : PoolState) (idx : Nat) (sp : Nat → Bool)
    (retry fuel : Nat) (h : st.segments.getD idx false = false) :
    claimSlotFrom st idx sp retry (fuel + 1) =
      (none, [AtomicEvent.casFailure idx .acq_rel .relaxed false]) := by
  rw [claimSlotFrom, h]

lemma claimSlot_occupied (st : PoolState) (idx : Nat) (sp : Nat → Bool)
    (h : st.segments.getD idx false = false) :
    claimSlot st idx sp =
      (none, [AtomicEvent.casFailure idx .acq_rel .relaxed false]) := by
  rw [claimSlot, show max_spurious_retries = 2 + 1 from rfl]
  exact claimSlotFrom_occupied st idx sp 0 2 h

lemma claimSlot_free (st : PoolState) (idx : Nat) (sp : Nat → Bool)
    (h : st.segments.getD idx false = true) (hsp : sp 0 = false) :
    claimSlot st idx sp =
      (some { st with segments := st.segments.set idx false },
       [AtomicEvent.casSuccess idx .acq_rel .relaxed]) := by
  rw [claimSlot, show max_spurious_retries = 2 + 1 from rfl, claimSlotFrom, h, hsp]

lemma claimSlotFrom_some (st : PoolState) (idx : Nat) (sp : Nat → Bool) :
    ∀ fuel retry st' evs,
      claimSlotFrom st idx sp retry fuel = (some st', evs) →
      st.segments.getD idx false = true ∧
      st' = { st with segments := st.segments.set idx false } := by
  intro fuel
  induction fuel with
  | zero => intro retry st' evs h; simp [claimSlotFrom] at h
  | succ n ih =>
    intro retry st' evs h
    rw [claimSlotFrom] at h
    cases ha : st.segments.getD idx false with
    | false =>
      rw [ha] at h
      exact absurd (congrArg Prod.fst h) (by simp)
    | true =>
      rw [ha] at h
      cases hsp : sp retry with
      | false =>
        rw [hsp] at h
        exact ⟨rfl, (Option.some.inj (congrArg Prod.fst h)).symm⟩
      | true =>
        rw [hsp] at h
        have h1 : (claimSlotFrom st idx sp (retry + 1) n).1 = some st' :=
          congrArg Prod.fst h
        exact ⟨rfl,
          (ih (retry + 1) st' (claimSlotFrom st idx sp (retry + 1) n).2
            (by rw [← h1])).2⟩

lemma claimSlotFrom_events_length (st : PoolState) (idx : Nat) (sp : Nat → Bool) :
    ∀ fuel retry, (claimSlotFrom st idx sp retry fuel).2.length ≤ fuel := by
  intro fuel
  induction fuel with
  | zero => intro retry; simp [claimSlotFrom]
  | succ n ih =>
    intro retry
    rw [claimSlotFrom]
    cases ha : st.segments.getD idx false with
    | false => simp
    | true =>
      cases hsp : sp retry with
      | false => simp
      | true =>
        have := ih (retry + 1)
        simp only [List.length_cons]
        omega

lemma claimSlotFrom_orderOk (st : PoolState) (idx : Nat) (sp : Nat → Bool) :
    ∀ fuel retry, ∀ e ∈ (claimSlotFrom st idx sp retry fuel).2, orderOk e := by
  intro fuel
  induction fuel with
  | zero => intro retry e he; simp [claimSlotFrom] at he
  | succ n ih =>
    intro retry e he
    rw [claimSlotFrom] at he
    cases ha : st.segments.getD idx false with
    | false =>
      rw [ha] at he
      simp only [List.mem_singleton] at he
      subst he; exact ⟨rfl, rfl⟩
    | true =>
      rw [ha] at he
      cases hsp : sp retry with
      | false =>
        rw [hsp] at he
        simp only [List.mem_singleton] at he
        subst he; exact ⟨rfl, rfl⟩
      | true =>
        rw [hsp] at he
        simp only [List.mem_cons] at he
        rcases he with he | he
        · subst he; exact ⟨rfl, rfl⟩
        · exact ih (retry + 1) e he

lemma claimSlotFrom_free_spurious (st : PoolState) (idx : Nat) (sp : Nat → Bool)
    (hfree : st.segments.getD idx false = true) :
    ∀ fuel retry, (∀ r, retry ≤ r → r < retry + fuel → sp r = true) →
      claimSlotFrom st idx sp retry fuel =
        (none, List.replicate fuel (AtomicEvent.casFailure idx .acq_rel .relaxed true)) := by
  intro fuel
  induction fuel with
  | zero => intro retry _; rfl
  | succ n ih =>
    intro retry h
    rw [claimSlotFrom, hfree, h retry le_rfl (by omega)]
    rw [ih (retry + 1) (fun r h1 h2 => h r (by omega) (by omega))]
    rfl

lemma claimSlotFrom_free_isSome (st : PoolState) (idx : Nat) (sp : Nat → Bool)
    (hfree : st.segments.getD idx false = true) :
    ∀ fuel retry,
      ((claimSlotFrom st idx sp retry fuel).1.isSome = true ↔
        ∃ r, retry ≤ r ∧ r < retry + fuel ∧ sp r = false) := by
  intro fuel
  induction fuel with
  | zero =>
    intro retry
    refine iff_of_false (by simp [claimSlotFrom]) ?_
    rintro ⟨r, h1, h2, _⟩
    omega
  | succ n ih =>
    intro retry
    rw [claimSlotFrom, hfree]
    cases hsp : sp retry with
    | false =>
      exact iff_of_true rfl ⟨retry, le_rfl, by omega, hsp⟩
    | true =>
      show (claimSlotFrom st idx sp (retry + 1) n).1.isSome = true ↔ _
      rw [ih (retry + 1)]
      constructor
      · rintro ⟨r, h1, h2, h3⟩
        exact ⟨r, by omega, by omega, h3⟩
      · rintro ⟨r, h1, h2, h3⟩
        rcases Nat.eq_or_lt_of_le h1 with he | hlt
        · rw [← he, hsp] at h3; cases h3
        · exact ⟨r, by omega, by omega, h3⟩

end ClaimSlotLemmas

section AllocFromLemmas

lemma allocFrom_exhausted (st : PoolState) (psize start : Nat)
    (spur : Nat → Nat → Bool) (ctorOk : Bool) :
    ∀ fuel attempts,
      (∀ k, attempts ≤ k → k < attempts + fuel →
        st.segments.getD ((start + k) % psize) false = false) →
      (allocFrom st psize start spur ctorOk attempts fuel).result = .ok none ∧
      (allocFrom st psize start spur ctorOk attempts fuel).state = st := by
  intro fuel
  induction fuel with
  | zero => intro attempts _; exact ⟨rfl, rfl⟩
  | succ n ih =>
    intro attempts h
    have hocc := h attempts le_rfl (by omega)
    rw [allocFrom.eq_4 st psize start spur attempts n ctorOk _
      (claimSlot_occupied _ _ _ hocc)]
    exact ih (attempts + 1) (fun k hk1 hk2 => h k (by omega) (by omega))

lemma allocFrom_first_free (st : PoolState) (psize start : Nat) (ctorOk : Bool) :
    ∀ fuel attempts k,
      attempts ≤ k → k < attempts + fuel →
      st.segments.getD ((start + k) % psize) false = true →
      (∀ j, attempts ≤ j → j < k →
        st.segments.getD ((start + j) % psize) false = false) →
      (ctorOk = true →
        (allocFrom st psize start noSpur ctorOk attempts fuel).result =
          .ok (some ((start + k) % psize)) ∧
        (allocFrom st psize start noSpur ctorOk attempts fuel).state.segments =
          st.segments.set ((start + k) % psize) false ∧
        (allocFrom st psize start noSpur ctorOk attempts fuel).state.search_start =
          ((start + k) % psize + 1) % psize) ∧
      (ctorOk = false →
        (allocFrom st psize start noSpur ctorOk attempts fuel).result = .error () ∧
        (allocFrom st psize start noSpur ctorOk attempts fuel).state = st) := by
  intro fuel
  induction fuel with
  | zero => intro attempts k h1 h2 _ _; omega
  | succ n ih =>
    intro attempts k hak hka hfree hmin
    by_cases heq : attempts = k
    · subst heq
      cases ctorOk with
      | true =>
        refine ⟨fun _ => ?_, fun hf => Bool.noConfusion hf⟩
        rw [allocFrom.eq_2 st psize start noSpur attempts n _ _
          (claimSlot_free st ((start + attempts) % psize) (noSpur attempts) hfree rfl)]
        exact ⟨rfl, rfl, rfl⟩
      | false =>
        refine ⟨fun ht => Bool.noConfusion ht, fun _ => ?_⟩
        rw [allocFrom.eq_3 st psize start noSpur attempts n _ _
          (claimSlot_free st ((start + attempts) % psize) (noSpur attempts) hfree rfl)]
        refine ⟨rfl, ?_⟩
        show PoolState.mk
          ((st.segments.set ((start + attempts) % psize) false).set
            ((start + attempts) % psize) true) st.search_start = st
        rw [List.set_set, set_getD_self _ _ hfree]
    · have hocc := hmin attempts le_rfl (by omega)
      rw [allocFrom.eq_4 st psize start noSpur attempts n ctorOk _
        (claimSlot_occupied _ _ _ hocc)]
      exact ih (attempts + 1) k (by omega) (by omega) hfree
        (fun j hj1 hj2 => hmin j (by omega) hj2)

lemma allocFrom_cases (st : PoolState) (psize start : Nat) (spur : Nat → Nat → Bool)
    (ctorOk : Bool) :
    ∀ fuel attempts,
      ((allocFrom st psize start spur ctorOk attempts fuel).result = .ok none ∧
       (allocFrom st psize start spur ctorOk attempts fuel).state = st) ∨
      ∃ i, st.segments.getD i false = true ∧
        (((allocFrom st psize start spur ctorOk attempts fuel).result = .ok (some i) ∧
          (allocFrom st psize start spur ctorOk attempts fuel).state.segments =
            st.segments.set i false ∧
          (allocFrom st psize start spur ctorOk attempts fuel).state.search_start =
            (i + 1) % psize) ∨
         ((allocFrom st psize start spur ctorOk attempts fuel).result = .error () ∧
          (allocFrom st psize start spur ctorOk attempts fuel).state = st)) := by
  intro fuel
  induction fuel with
  | zero => intro attempts; exact Or.inl ⟨rfl, rfl⟩
  | succ n ih =>
    intro attempts
    rcases hC : claimSlot st ((start + attempts) % psize) (spur attempts) with ⟨c1, c2⟩
    cases c1 with
    | none =>
      rw [allocFrom.eq_4 st psize start spur attempts n ctorOk c2 hC]
      exact ih (attempts + 1)
    | some st' =>
      obtain ⟨hfree, hst'⟩ :=
        claimSlotFrom_some st ((start + attempts) % psize) (spur attempts)
          max_spurious_retries 0 st' c2 hC
      subst hst'
      cases ctorOk with
      | true =>
        refine Or.inr ⟨(start + attempts) % psize, hfree, Or.inl ?_⟩
        rw [allocFrom.eq_2 st psize start spur attempts n _ c2 hC]
        exact ⟨rfl, rfl, rfl⟩
      | false =>
        refine Or.inr ⟨(start + attempts) % psize, hfree, Or.inr ?_⟩
        rw [allocFrom.eq_3 st psize start spur attempts n _ c2 hC]
        refine ⟨rfl, ?_⟩
        show PoolState.mk
          ((st.segments.set ((start + attempts) % psize) false).set
            ((start + attempts) % psize) true) st.search_start = st
        rw [List.set_set, set_getD_self _ _ hfree]

lemma allocFrom_orderOk (st : PoolState) (psize start : Nat) (spur : Nat → Nat → Bool)
    (ctorOk : Bool) :
    ∀ fuel attempts,
      ∀ e ∈ (allocFrom st psize start spur ctorOk attempts fuel).events, orderOk e := by
  intro fuel
  induction fuel with
  | zero => intro attempts e he; simp [allocFrom] at he
  | succ n ih =>
    intro attempts e he
    rcases hC : claimSlot st ((start + attempts) % psize) (spur attempts) with ⟨c1, c2⟩
    have hcl : ∀ e ∈ c2, orderOk e := by
      intro e he2
      have h2 : (claimSlot st ((start + attempts) % psize) (spur attempts)).2 = c2 :=
        congrArg Prod.snd hC
      rw [← h2] at he2
      exact claimSlotFrom_orderOk st ((start + attempts) % psize) (spur attempts)
        max_spurious_retries 0 e he2
    cases c1 with
    | none =>
      rw [allocFrom.eq_4 st psize start spur attempts n ctorOk c2 hC] at he
      rcases List.mem_append.mp he with h | h
      · exact hcl e h
      · exact ih (attempts + 1) e h
    | some st' =>
      cases ctorOk with
      | true =>
        rw [allocFrom.eq_2 st psize start spur attempts n st' c2 hC] at he
        rcases List.mem_append.mp he with h | h
        · exact hcl e h
        · simp only [List.mem_singleton] at h
          subst h; exact rfl
      | false =>
        rw [allocFrom.eq_3 st psize start spur attempts n st' c2 hC] at he
        rcases List.mem_append.mp he with h | h
        · exact hcl e h
        · simp only [List.mem_singleton] at h
          subst h; exact ⟨rfl, rfl⟩

end AllocFromLemmas

section AllocateLemmas

lemma allocate_fast_result (st : PoolState) (spur : Nat → Nat → Bool) (c : Bool) :
    (allocate_fast st spur c).result =
      (allocFrom st st.segments.length st.search_start spur c 0
        st.segments.length).result := rfl

lemma allocate_fast_state (st : PoolState) (spur : Nat → Nat → Bool) (c : Bool) :
    (allocate_fast st spur c).state =
      (allocFrom st st.segments.length st.search_start spur c 0
        st.segments.length).state := rfl

lemma allocate_fast_events (st : PoolState) (spur : Nat → Nat → Bool) (c : Bool) :
    (allocate_fast st spur c).events =
      AtomicEvent.hintLoad .relaxed ::
        (allocFrom st st.segments.length st.search_start spur c 0
          st.segments.length).events := rfl

lemma allocate_fast_cases (st : PoolState) (spur : Nat → Nat → Bool) (c : Bool) :
    ((allocate_fast st spur c).result = .ok none ∧
     (allocate_fast st spur c).state = st) ∨
    ∃ i, st.segments.getD i false = true ∧
      (((allocate_fast st spur c).result = .ok (some i) ∧
        (allocate_fast st spur c).state.segments = st.segments.set i false ∧
        (allocate_fast st spur c).state.search_start =
          (i + 1) % st.segments.length) ∨
       ((allocate_fast st spur c).result = .error () ∧
        (allocate_fast st spur c).state = st)) := by
  rw [allocate_fast_result, allocate_fast_state]
  exact allocFrom_cases st st.segments.length st.search_start spur c
    st.segments.length 0

lemma allocate_fast_exhausted (st : PoolState) (spur : Nat → Nat → Bool) (c : Bool)
    (h : st.segments.count true = 0) :
    (allocate_fast st spur c).result = .ok none ∧
    (allocate_fast st spur c).state = st := by
  rw [allocate_fast_result, allocate_fast_state]
  exact allocFrom_exhausted st st.segments.length st.search_start spur c
    st.segments.length 0 (fun k _ _ => count_zero_getD st.segments h _)

lemma exists_first_free (st : PoolState) (h : 0 < st.segments.count true) :
    ∃ k0, k0 < st.segments.length ∧
      st.segments.getD ((st.search_start + k0) % st.segments.length) false = true ∧
      ∀ j, j < k0 →
        st.segments.getD ((st.search_start + j) % st.segments.length) false = false := by
  have hN : 0 < st.segments.length :=
    lt_of_lt_of_le h (List.count_le_length true st.segments)
  obtain ⟨i0, hi0len, hi0⟩ := count_pos_exists st.segments h
  obtain ⟨k1, hk1, hk1eq⟩ :=
    exists_probe_hit st.segments.length st.search_start i0 hN hi0len
  have hex : ∃ j,
      st.segments.getD ((st.search_start + j) % st.segments.length) false = true :=
    ⟨k1, by rw [hk1eq]; exact hi0⟩
  refine ⟨Nat.find hex, ?_, Nat.find_spec hex, ?_⟩
  · exact lt_of_le_of_lt (Nat.find_min' hex (by rw [hk1eq]; exact hi0)) hk1
  · intro j hj
    have hne := Nat.find_min hex hj
    cases hx : st.segments.getD ((st.search_start + j) % st.segments.length) false
    · rfl
    · exact absurd hx hne

lemma allocate_fast_succeeds (st : PoolState) (h : 0 < st.segments.count true) :
    ∃ i, st.segments.getD i false = true ∧
      (allocate_fast st noSpur true).result = .ok (some i) ∧
      (allocate_fast st noSpur true).state.segments = st.segments.set i false ∧
      (allocate_fast st noSpur true).state.search_start =
        (i + 1) % st.segments.length := by
  obtain ⟨k0, hk0, hP, hmin⟩ := exists_first_free st h
  refine ⟨(st.search_start + k0) % st.segments.length, hP, ?_⟩
  rw [allocate_fast_result, allocate_fast_state]
  exact (allocFrom_first_free st st.segments.length st.search_start true
    st.segments.length 0 k0 (Nat.zero_le _) (by omega) hP
    (fun j _ hj => hmin j hj)).1 rfl

lemma allocate_fast_throws (st : PoolState) (h : 0 < st.segments.count true) :
    (allocate_fast st noSpur false).result = .error () ∧
    (allocate_fast st noSpur false).state = st := by
  obtain ⟨k0, hk0, hP, hmin⟩ := exists_first_free st h
  rw [allocate_fast_result, allocate_fast_state]
  exact (allocFrom_first_free st st.segments.length st.search_start false
    st.segments.length 0 k0 (Nat.zero_le _) (by omega) hP
    (fun j _ hj => hmin j hj)).2 rfl

lemma allocate_safe_of_ok (st : PoolState) (spur : Nat → Nat → Bool) (c : Bool)
    (p : Option Nat) (h : (allocate_fast st spur c).result = .ok p) :
    allocate_safe st spur c = (p, (allocate_fast st spur c).state) := by
  have hdef : allocate_safe st spur c =
      match (allocate_fast st spur c).result with
      | .ok p => (p, (allocate_fast st spur c).state)
      | .error _ => (none, (allocate_fast st spur c).state) := rfl
  rw [hdef, h]

lemma allocate_safe_of_error (st : PoolState) (spur : Nat → Nat → Bool) (c : Bool)
    (h : (allocate_fast st spur c).result = .error ()) :
    allocate_safe st spur c = (none, (allocate_fast st spur c).state) := by
  have hdef : allocate_safe st spur c =
      match (allocate_fast st spur c).result with
      | .ok p => (p, (allocate_fast st spur c).state)
      | .error _ => (none, (allocate_fast st spur c).state) := rfl
  rw [hdef, h]

lemma allocate_safe_state (st : PoolState) (spur : Nat → Nat → Bool) (c : Bool) :
    (allocate_safe st spur c).2 = (allocate_fast st spur c).state := by
  cases hr : (allocate_fast st spur c).result with
  | ok p => rw [allocate_safe_of_ok st spur c p hr]
  | error e => cases e; rw [allocate_safe_of_error st spur c hr]

lemma allocate_fast_state_length (st : PoolState) (spur : Nat → Nat → Bool) (c : Bool) :
    (allocate_fast st spur c).state.segments.length = st.segments.length := by
  rcases allocate_fast_cases st spur c with ⟨_, hst⟩ | ⟨i, _, ⟨_, hseg, _⟩ | ⟨_, hst⟩⟩
  · rw [hst]
  · rw [hseg, List.length_set]
  · rw [hst]

lemma step_length (st : PoolState) (op : Op) :
    (step st op).segments.length = st.segments.length := by
  cases op with
  | alloc c =>
    show (allocate_safe st noSpur c).2.segments.length = st.segments.length
    rw [allocate_safe_state]
    exact allocate_fast_state_length st noSpur c
  | free ptr =>
    cases ptr with
    | none => rfl
    | some j =>
      show ((deallocate_fast st (some j)).1).segments.length = st.segments.length
      simp [deallocate_fast, deallocate_impl_safe, List.length_set]

lemma runOps_length (st : PoolState) (ops : List Op) :
    (runOps st ops).segments.length = st.segments.length := by
  induction ops generalizing st with
  | nil => rfl
  | cons op ops ih =>
    show (runOps (step st op) ops).segments.length = st.segments.length
    rw [ih (step st op), step_length]

end AllocateLemmas

section SequenceLemmas

lemma allocN_counts (st : PoolState) : ∀ n,
    ((allocN st n).1.countP (fun r => r.isSome)) =
      min n (st.segments.count true) ∧
    (allocN st n).1.length = n := by
  intro n
  induction n generalizing st with
  | zero => simp [allocN]
  | succ n ih =>
    rcases Nat.eq_zero_or_pos (st.segments.count true) with h0 | hpos
    · have hex := allocate_fast_exhausted st noSpur true h0
      have hsafe : allocate_safe st noSpur true = (none, st) := by
        rw [allocate_safe_of_ok st noSpur true none hex.1, hex.2]
      have hunf : allocN st (n + 1) =
          ((allocate_safe st noSpur true).1 :: (allocN (allocate_safe st noSpur true).2 n).1,
           (allocN (allocate_safe st noSpur true).2 n).2) := rfl
      rw [hunf, hsafe]
      constructor
      · simp only [List.countP_cons, Option.isSome_none, if_false, (ih st).1, h0]
        simp
      · simp [(ih st).2]
    · obtain ⟨i, hfree, hres, hseg, hhint⟩ := allocate_fast_succeeds st hpos
      have hsafe : allocate_safe st noSpur true =
          (some i, (allocate_fast st noSpur true).state) :=
        allocate_safe_of_ok st noSpur true (some i) hres
      have hunf : allocN st (n + 1) =
          ((allocate_safe st noSpur true).1 :: (allocN (allocate_safe st noSpur true).2 n).1,
           (allocN (allocate_safe st noSpur true).2 n).2) := rfl
      rw [hunf, hsafe]
      have hcount : (allocate_fast st noSpur true).state.segments.count true + 1 =
          st.segments.count true := by
        rw [hseg]
        exact count_true_set_false st.segments i hfree
      constructor
      · simp only [List.countP_cons, Option.isSome_some, if_true,
          (ih (allocate_fast st noSpur true).state).1]
        omega
      · simp [(ih (allocate_fast st noSpur true).state).2]

lemma allocate_safe_not_occupied (st : PoolState) (c : Bool) (i : Nat)
    (h : st.segments.getD i false = false) :
    (allocate_safe st noSpur c).1 ≠ some i ∧
    (allocate_safe st noSpur c).2.segments.getD i false = false := by
  rcases allocate_fast_cases st noSpur c with ⟨hres, hst⟩ |
    ⟨m, hm, ⟨hres, hseg, _⟩ | ⟨hres, hst⟩⟩
  · rw [allocate_safe_of_ok st noSpur c none hres, hst]
    exact ⟨by simp, h⟩
  · rw [allocate_safe_of_ok st noSpur c (some m) hres]
    have hmi : m ≠ i := by
      intro he; rw [he, h] at hm; cases hm
    constructor
    · simp only [ne_eq, Option.some.injEq]
      exact hmi
    · show (allocate_fast st noSpur c).state.segments.getD i false = false
      rw [hseg, getD_set_ne st.segments m i false hmi]
      exact h
  · rw [allocate_safe_of_error st noSpur c hres, hst]
    exact ⟨by simp, h⟩

lemma step_preserves_occupied (st : PoolState) (op : Op) (i : Nat)
    (h : st.segments.getD i false = false) (hop : op ≠ Op.free (some i)) :
    (step st op).segments.getD i false = false := by
  cases op with
  | alloc c => exact (allocate_safe_not_occupied st c i h).2
  | free ptr =>
    cases ptr with
    | none => exact h
    | some j =>
      have hji : j ≠ i := by
        intro he; exact hop (by rw [he])
      show ((deallocate_fast st (some j)).1).segments.getD i false = false
      have hd : (deallocate_fast st (some j)).1 =
          { st with segments := st.segments.set j true } := rfl
      rw [hd]
      show (st.segments.set j true).getD i false = false
      rw [getD_set_ne st.segments j i true hji]
      exact h

end SequenceLemmas

/-- C1: for a pool of capacity `N ≥ 1`, `allocate_fast` reads the hint as
the probe start, probes slots `(start + k) % N` for `k = 0 .. N-1` in order,
claims the first free slot, publishes the new hint `(i + 1) % N` and returns
that slot's index; if every probed slot is occupied it returns null and the
pool is left unchanged. -/
theorem allocate_fast_probes_from_hint (st : PoolState)
    (hN : 1 ≤ st.segments.length) :
    (∀ k0, k0 < st.segments.length →
      st.segments.getD ((st.search_start + k0) % st.segments.length) false = true →
      (∀ j, j < k0 →
        st.segments.getD ((st.search_start + j) % st.segments.length) false = false) →
      (allocate_fast st noSpur true).result =
        .ok (some ((st.search_start + k0) % st.segments.length)) ∧
      (allocate_fast st noSpur true).state.segments =
        st.segments.set ((st.search_start + k0) % st.segments.length) false ∧
      (allocate_fast st noSpur true).state.search_start =
        ((st.search_start + k0) % st.segments.length + 1) % st.segments.length) ∧
    ((∀ k, k < st.segments.length →
      st.segments.getD ((st.search_start + k) % st.segments.length) false = false) →
      (allocate_fast st noSpur true).result = .ok none ∧
      (allocate_fast st noSpur true).state = st) := by
  constructor
  · intro k0 hk0 hfree hmin
    rw [allocate_fast_result, allocate_fast_state]
    exact (allocFrom_first_free st st.segments.length st.search_start true
      st.segments.length 0 k0 (Nat.zero_le _) (by omega) hfree
      (fun j _ hj => hmin j hj)).1 rfl
  · intro hall
    rw [allocate_fast_result, allocate_fast_state]
    exact allocFrom_exhausted st st.segments.length st.search_start noSpur true
      st.segments.length 0 (fun k _ hk => hall k (by omega))

theorem allocate_fast_probes_from_hint_witness :
    (allocate_fast { segments := [false, true], search_start := 0 } noSpur true).result =
      .ok (some ((0 + 1) % 2)) ∧
    (allocate_fast { segments := [false, true], search_start := 0 } noSpur
      true).state.segments = [false, true].set ((0 + 1) % 2) false ∧
    (allocate_fast { segments := [false, true], search_start := 0 } noSpur
      true).state.search_start = ((0 + 1) % 2 + 1) % 2 :=
  (allocate_fast_probes_from_hint { segments := [false, true], search_start := 0 }
    (by decide)).1 1 (by decide) (by decide) (by decide)

/-- C2: the number of occupied slots never exceeds the capacity `N`, over
any finite sequence of allocate/release operations; and `N + 1` back-to-back
allocations on a fresh pool yield exactly `N` successes and at least one
null result. -/
theorem capacity_bound (N : Nat) (ops : List Op) :
    occupiedCount (runOps (mkPool N) ops) ≤ N ∧
    ((allocN (mkPool N) (N + 1)).1.countP (fun r => r.isSome)) = N ∧
    1 ≤ ((allocN (mkPool N) (N + 1)).1.countP (fun r => r.isNone)) := by
  have hc : (mkPool N).segments.count true = N := by
    simp [mkPool, List.count_replicate_self]
  refine ⟨?_, ?_, ?_⟩
  · have h1 : occupiedCount (runOps (mkPool N) ops) ≤
        (runOps (mkPool N) ops).segments.length := List.countP_le_length _
    rw [runOps_length] at h1
    simpa [mkPool] using h1
  · rw [(allocN_counts (mkPool N) (N + 1)).1, hc]
    omega
  · have hlen := (allocN_counts (mkPool N) (N + 1)).2
    have hsome := (allocN_counts (mkPool N) (N + 1)).1
    rw [hc] at hsome
    have hsplit := List.length_eq_countP_add_countP (fun r => r.isSome)
      ((allocN (mkPool N) (N + 1)).1)
    have hcongr : ((allocN (mkPool N) (N + 1)).1.countP
          (fun r => decide ¬(r.isSome = true))) =
        ((allocN (mkPool N) (N + 1)).1.countP (fun r => r.isNone)) := by
      apply List.countP_congr
      intro r _
      cases r <;> simp
    rw [hcongr] at hsplit
    omega

/-- C3: between a successful allocation of slot `i` and the release of that
slot, no other allocation returns slot `i`: starting from any state in
which slot `i` is occupied, as long as the operation sequence contains no
release of `i`, no allocation in the sequence returns `i`. -/
theorem no_aliasing (st : PoolState) (i : Nat) (ops : List Op)
    (hocc : st.segments.getD i false = false)
    (hnofree : Op.free (some i) ∉ ops) :
    ∀ r ∈ runAllocResults st ops, r ≠ some i := by
  induction ops generalizing st with
  | nil => intro r hr; simp [runAllocResults] at hr
  | cons op ops ih =>
    have hop : op ≠ Op.free (some i) := fun he => hnofree (he ▸ List.mem_cons_self _ _)
    have hnof : Op.free (some i) ∉ ops := fun hm => hnofree (List.mem_cons_of_mem _ hm)
    cases op with
    | alloc c =>
      intro r hr
      have hunf : runAllocResults st (Op.alloc c :: ops) =
          (allocate_safe st noSpur c).1 ::
            runAllocResults (step st (Op.alloc c)) ops := rfl
      rw [hunf] at hr
      rcases List.mem_cons.mp hr with hr | hr
      · rw [hr]
        exact (allocate_safe_not_occupied st c i hocc).1
      · exact ih (step st (Op.alloc c))
          (step_preserves_occupied st (Op.alloc c) i hocc hop) hnof r hr
    | free ptr =>
      intro r hr
      have hunf : runAllocResults st (Op.free ptr :: ops) =
          runAllocResults (step st (Op.free ptr)) ops := rfl
      rw [hunf] at hr
      exact ih (step st (Op.free ptr))
        (step_preserves_occupied st (Op.free ptr) i hocc hop) hnof r hr

theorem no_aliasing_witness :
    runAllocResults { segments := [false, true], search_start := 0 }
      [Op.alloc true] = [some 1] ∧
    (some 1 : Option Nat) ≠ some 0 :=
  ⟨by decide,
   no_aliasing { segments := [false, true], search_start := 0 } 0 [Op.alloc true]
     (by decide) (by decide) (some 1) (by decide)⟩

/-- C4: when the constructor of `T` fails on a non-full pool, `allocate_fast`
returns the claimed slot to the free state (the entire pool state is
restored) and propagates the exception; `allocate_safe` suppresses the
error and returns an empty handle; a subsequent allocation succeeds. -/
theorem ctor_exception_restores_slot (st : PoolState)
    (h : 0 < st.segments.count true) :
    (allocate_fast st noSpur false).result = .error () ∧
    (allocate_fast st noSpur false).state = st ∧
    allocate_safe st noSpur false = (none, st) ∧
    ((allocate_safe (allocate_safe st noSpur false).2 noSpur true).1).isSome = true := by
  obtain ⟨hres, hst⟩ := allocate_fast_throws st h
  have hsafe : allocate_safe st noSpur false = (none, st) := by
    rw [allocate_safe_of_error st noSpur false hres, hst]
  refine ⟨hres, hst, hsafe, ?_⟩
  rw [hsafe]
  obtain ⟨i, _, hres2, _, _⟩ := allocate_fast_succeeds st h
  rw [allocate_safe_of_ok st noSpur true (some i) hres2]
  rfl

theorem ctor_exception_restores_slot_witness :
    (allocate_fast { segments := [true], search_start := 0 } noSpur false).result =
      .error () ∧
    (allocate_fast { segments := [true], search_start := 0 } noSpur false).state =
      { segments := [true], search_start := 0 } ∧
    allocate_safe { segments := [true], search_start := 0 } noSpur false =
      (none, { segments := [true], search_start := 0 }) ∧
    ((allocate_safe (allocate_safe { segments := [true], search_start := 0 }
      noSpur false).2 noSpur true).1).isSome = true :=
  ctor_exception_restores_slot { segments := [true], search_start := 0 } (by decide)

/-- C5: releasing a null pointer is a no-op: `deallocate_fast nullptr`
returns the state unchanged with no atomic events (no destructor runs), so
a subsequent allocation and the diagnostic snapshot behave exactly as they
would have without the null release. -/
theorem null_release_noop (st : PoolState) (spur : Nat → Nat → Bool) (ctorOk : Bool) :
    deallocate_fast st none = (st, []) ∧
    allocate_fast (deallocate_fast st none).1 spur ctorOk =
      allocate_fast st spur ctorOk ∧
    get_pool_stats_impl (deallocate_fast st none).1 = get_pool_stats_impl st :=
  ⟨rfl, rfl, rfl⟩

/-- C6: the diagnostic snapshot returns `total` equal to the capacity,
`free` equal to the count of slots whose availability flag reads `true`,
`used = total - free` (hence `free + used = total` by construction), and
`utilization_percent = used / total * 100`, defined as `0` when
`total = 0`. -/
theorem pool_stats_contract (st : PoolState) :
    (get_pool_stats_impl st).total_objects = st.segments.length ∧
    (get_pool_stats_impl st).free_objects = st.segments.count true ∧
    (get_pool_stats_impl st).used_objects =
      (get_pool_stats_impl st).total_objects -
        (get_pool_stats_impl st).free_objects ∧
    (get_pool_stats_impl st).free_objects + (get_pool_stats_impl st).used_objects =
      (get_pool_stats_impl st).total_objects ∧
    (get_pool_stats_impl st).utilization_percent =
      (if 0 < (get_pool_stats_impl st).total_objects then
        ((get_pool_stats_impl st).used_objects : Rat) /
          ((get_pool_stats_impl st).total_objects : Rat) * 100
      else 0) ∧
    ((get_pool_stats_impl st).total_objects = 0 →
      (get_pool_stats_impl st).utilization_percent = 0) := by
  refine ⟨rfl, rfl, rfl, ?_, rfl, ?_⟩
  · show st.segments.count true +
      (st.segments.length - st.segments.count true) = st.segments.length
    exact Nat.add_sub_cancel' (List.count_le_length true st.segments)
  · intro h
    show (if 0 < st.segments.length then
        ((st.segments.length - st.segments.count true : Nat) : Rat) /
          (st.segments.length : Rat) * 100
      else 0) = 0
    have h0 : st.segments.length = 0 := h
    rw [h0]
    simp

theorem pool_stats_contract_witness :
    (get_pool_stats_impl (mkPool 0)).utilization_percent = 0 :=
  (pool_stats_contract (mkPool 0)).2.2.2.2.2 rfl

/-- C7: the spurious-CAS retry cap is the single symbolic constant
`max_spurious_retries` with value 3: a claim makes at most 3 CAS attempts
per slot, an occupied slot causes exactly one CAS failure and no retry, a
free slot with 3 consecutive spurious failures is abandoned after exactly 3
attempts, and a free slot is claimed exactly when one of the first 3
attempts is not spurious. -/
theorem cas_retry_policy (st : PoolState) (idx : Nat) (sp : Nat → Bool) :
    max_spurious_retries = 3 ∧
    (claimSlot st idx sp).2.length ≤ max_spurious_retries ∧
    (st.segments.getD idx false = false →
      claimSlot st idx sp =
        (none, [AtomicEvent.casFailure idx .acq_rel .relaxed false])) ∧
    (st.segments.getD idx false = true → sp 0 = true → sp 1 = true → sp 2 = true →
      claimSlot st idx sp =
        (none, [AtomicEvent.casFailure idx .acq_rel .relaxed true,
                AtomicEvent.casFailure idx .acq_rel .relaxed true,
                AtomicEvent.casFailure idx .acq_rel .relaxed true])) ∧
    (st.segments.getD idx false = true →
      ((claimSlot st idx sp).1.isSome = true ↔
        ∃ r, r < max_spurious_retries ∧ sp r = false)) := by
  refine ⟨rfl, claimSlotFrom_events_length st idx sp max_spurious_retries 0,
    claimSlot_occupied st idx sp, ?_, ?_⟩
  · intro hfree h0 h1 h2
    rw [claimSlot]
    exact claimSlotFrom_free_spurious st idx sp hfree 3 0
      (fun r hr1 hr2 => by interval_cases r <;> assumption)
  · intro hfree
    rw [claimSlot]
    rw [claimSlotFrom_free_isSome st idx sp hfree max_spurious_retries 0]
    constructor
    · rintro ⟨r, _, h2, h3⟩
      exact ⟨r, by omega, h3⟩
    · rintro ⟨r, h2, h3⟩
      exact ⟨r, Nat.zero_le _, by omega, h3⟩

theorem cas_retry_policy_witness :
    (claimSlot { segments := [true], search_start := 0 } 0
      (fun r => r == 0)).1.isSome = true ∧
    claimSlot { segments := [false], search_start := 0 } 0 (fun r => r == 0) =
      (none, [AtomicEvent.casFailure 0 .acq_rel .relaxed false]) :=
  ⟨((cas_retry_policy { segments := [true], search_start := 0 } 0
      (fun r => r == 0)).2.2.2.2 (by decide)).mpr ⟨1, by decide, by decide⟩,
   (cas_retry_policy { segments := [false], search_start := 0 } 0
      (fun r => r == 0)).2.2.1 (by decide)⟩

/-- C8: every atomic event in the trace of any allocation or release
satisfies the memory-ordering contract: the claim CAS uses acquire-release
on success and relaxed on failure, the release of a slot stores free with
release ordering, and all hint loads and stores are relaxed. -/
theorem memory_ordering_contract (st : PoolState) (spur : Nat → Nat → Bool)
    (ctorOk : Bool) (ptr : Option Nat) :
    (∀ e ∈ (allocate_fast st spur ctorOk).events, orderOk e) ∧
    (∀ e ∈ (deallocate_fast st ptr).2, orderOk e) := by
  constructor
  · intro e he
    rw [allocate_fast_events] at he
    rcases List.mem_cons.mp he with he | he
    · subst he; exact rfl
    · exact allocFrom_orderOk st st.segments.length st.search_start spur ctorOk
        st.segments.length 0 e he
  · intro e he
    cases ptr with
    | none => simp [deallocate_fast] at he
    | some j =>
      have hd : (deallocate_fast st (some j)).2 =
          [AtomicEvent.availStore j true .release] := rfl
      rw [hd] at he
      simp only [List.mem_singleton] at he
      subst he; exact ⟨rfl, rfl⟩

theorem memory_ordering_contract_witness :
    orderOk (AtomicEvent.hintLoad .relaxed) :=
  (memory_ordering_contract (mkPool 1) noSpur true none).1
    (AtomicEvent.hintLoad .relaxed) (by decide)

/-- C9: the release path performs no validity check: `deallocate_impl_safe`
unconditionally stores free into the slot computed by pointer subtraction
and returns `true` for every index, including indices outside
`[0, Capacity)`; hence the `SAFE_CALL` debug assertions guarding its call
sites can never fire. -/
theorem release_path_unchecked (st : PoolState) (idx : Nat) :
    (deallocate_impl_safe st idx).1 = true ∧
    ¬ SAFE_CALL_aborts (deallocate_impl_safe st idx).1 ∧
    (deallocate_impl_safe st idx).2.1.segments = st.segments.set idx true ∧
    (deallocate_impl_safe st idx).2.1.search_start = st.search_start := by
  refine ⟨rfl, ?_, rfl, rfl⟩
  intro hab
  exact Bool.noConfusion hab

theorem release_path_unchecked_witness :
    (deallocate_impl_safe (mkPool 1) 5).1 = true :=
  (release_path_unchecked (mkPool 1) 5).1

/-- C10: a pool of capacity 0 is accepted; on it every `allocate_fast` and
`allocate_safe` call returns null and leaves the (empty) state unchanged —
the probe loop body never executes, so no modulo-by-zero is evaluated — and
the diagnostic snapshot is `{0, 0, 0, 0}`. -/
theorem zero_capacity_pool (spur : Nat → Nat → Bool) (ctorOk : Bool) :
    (mkPool 0).segments = [] ∧
    (allocate_fast (mkPool 0) spur ctorOk).result = .ok none ∧
    (allocate_fast (mkPool 0) spur ctorOk).state = mkPool 0 ∧
    allocate_safe (mkPool 0) spur ctorOk = (none, mkPool 0) ∧
    get_pool_stats_impl (mkPool 0) = ⟨0, 0, 0, 0⟩ :=
  ⟨rfl, rfl, rfl, rfl, rfl⟩

end LFMemoryPool
